import Mathlib

/-!
Verification of the frf-api submission/evaluation backend.

The definitions below are a shallow embedding of the Python source:
`app.py` (category / submission / evaluation endpoints) and `onchain.py`
(nonce registry, role lookup, token verification).  Machine floats are
modelled as exact rationals; Python's `round(x, 4)` (round-half-to-even)
is modelled by `round4`; MongoDB collections are modelled as Lean lists
of records; `uuid4` generation and the wall clock are passed in as
explicit parameters.
-/

namespace FRF

/-- Python `round` rounds a half-way value to the nearest even integer
(banker's rounding); this is that rule on rationals. -/
def pyRoundInt (q : ℚ) : ℤ :=
  if q - q.floor < 1/2 then q.floor
  else if 1/2 < q - q.floor then q.floor + 1
  else if q.floor % 2 = 0 then q.floor else q.floor + 1

/-- Python `round(x, 4)`: scale by 10^4, round half to even, scale back. -/
def round4 (q : ℚ) : ℚ := (pyRoundInt (q * 10000) : ℚ) / 10000

/-- The four scoring constants read from the environment in `app.py`
(`MAX_SCORE`, `AGREE_SCORE`, `DISAGREE_SCORE`, `NEITHER_SCORE`). -/
structure ScoreConfig where
  MAX_SCORE : ℚ
  AGREE_SCORE : ℚ
  DISAGREE_SCORE : ℚ
  NEITHER_SCORE : ℚ

/-- Model of `schemas.EvaluationAnswerCreate`: one answer of an incoming evaluation. -/
structure EvaluationAnswerCreate where
  question_id : String
  answer : String
  deriving DecidableEq

/-- One iteration of the score loop in `create_evaluation_with_answers`
(app.py lines 353-361): codes "1"/"2"/"3" add their weight to the running
total, any other code assigns 0.0 to the running total. -/
def scoreStep (cfg : ScoreConfig) (acc : ℚ) (a : EvaluationAnswerCreate) : ℚ :=
  if a.answer = "1" then acc + cfg.AGREE_SCORE
  else if a.answer = "2" then acc + cfg.DISAGREE_SCORE
  else if a.answer = "3" then acc + cfg.NEITHER_SCORE
  else 0

/-- The raw `evaluation_score` accumulated by the loop, starting from 0. -/
def rawScore (cfg : ScoreConfig) (answers : List EvaluationAnswerCreate) : ℚ :=
  answers.foldl (scoreStep cfg) 0

/-- Model of `calculated_score = round(evaluation_score / MAX_SCORE, 4)` (app.py line 363). -/
def calculatedScore (cfg : ScoreConfig) (answers : List EvaluationAnswerCreate) : ℚ :=
  round4 (rawScore cfg answers / cfg.MAX_SCORE)

/-- An answer code is valid when it is one of the three ordinal codes. -/
def validCode (a : EvaluationAnswerCreate) : Prop :=
  a.answer = "1" ∨ a.answer = "2" ∨ a.answer = "3"

instance (a : EvaluationAnswerCreate) : Decidable (validCode a) := by
  unfold validCode; infer_instance

/-- The weight a single valid answer contributes. -/
def answerWeight (cfg : ScoreConfig) (a : EvaluationAnswerCreate) : ℚ :=
  if a.answer = "1" then cfg.AGREE_SCORE
  else if a.answer = "2" then cfg.DISAGREE_SCORE
  else if a.answer = "3" then cfg.NEITHER_SCORE
  else 0

/-- Sum of the per-answer weights of a list of answers. -/
def weightSum (cfg : ScoreConfig) (answers : List EvaluationAnswerCreate) : ℚ :=
  (answers.map (answerWeight cfg)).sum

/-- The example configuration used by the spec's worked examples:
AGREE_SCORE=1, DISAGREE_SCORE=0, NEITHER_SCORE=0.5, MAX_SCORE=4. -/
def specCfg : ScoreConfig := ⟨4, 1, 0, 1/2⟩

lemma scoreStep_valid (cfg : ScoreConfig) (acc : ℚ) (a : EvaluationAnswerCreate)
    (h : validCode a) : scoreStep cfg acc a = acc + answerWeight cfg a := by
  rcases h with h | h | h <;> simp [scoreStep, answerWeight, h]

lemma scoreStep_invalid (cfg : ScoreConfig) (acc : ℚ) (a : EvaluationAnswerCreate)
    (h : ¬ validCode a) : scoreStep cfg acc a = 0 := by
  rw [validCode] at h
  push_neg at h
  simp [scoreStep, h.1, h.2.1, h.2.2]

lemma foldl_scoreStep_valid (cfg : ScoreConfig) (answers : List EvaluationAnswerCreate)
    (h : ∀ a ∈ answers, validCode a) (acc : ℚ) :
    answers.foldl (scoreStep cfg) acc = acc + weightSum cfg answers := by
  induction answers generalizing acc with
  | nil => simp [weightSum]
  | cons x xs ih =>
    have hx : validCode x := h x (List.mem_cons_self _ _)
    have hxs : ∀ a ∈ xs, validCode a := fun a ha => h a (List.mem_cons_of_mem _ ha)
    simp only [List.foldl_cons, scoreStep_valid cfg acc x hx, ih hxs]
    simp [weightSum, add_assoc]

lemma rawScore_all_valid (cfg : ScoreConfig) (answers : List EvaluationAnswerCreate)
    (h : ∀ a ∈ answers, validCode a) : rawScore cfg answers = weightSum cfg answers := by
  simpa using foldl_scoreStep_valid cfg answers h 0

lemma rawScore_after_invalid (cfg : ScoreConfig) (l₁ l₂ : List EvaluationAnswerCreate)
    (bad : EvaluationAnswerCreate) (hbad : ¬ validCode bad)
    (hl₂ : ∀ a ∈ l₂, validCode a) :
    rawScore cfg (l₁ ++ bad :: l₂) = weightSum cfg l₂ := by
  unfold rawScore
  rw [List.foldl_append, List.foldl_cons, scoreStep_invalid cfg _ bad hbad,
    foldl_scoreStep_valid cfg l₂ hl₂ 0, zero_add]

lemma ratFloor_eq_intFloor (q : ℚ) : q.floor = ⌊q⌋ := by
  rw [Rat.floor_def', Rat.floor_def]

lemma pyRoundInt_intCast (n : ℤ) : pyRoundInt (n : ℚ) = n := by
  have h : ((n : ℚ)).floor = n := by rw [ratFloor_eq_intFloor]; exact Int.floor_intCast n
  simp only [pyRoundInt, h, sub_self]
  norm_num

lemma round4_of_mul_eq_int (q : ℚ) (n : ℤ) (h : q * 10000 = (n : ℚ)) :
    round4 q = (n : ℚ) / 10000 := by
  rw [round4, h, pyRoundInt_intCast]

/-- Model of `models.Category` as stored in the categories collection.  A category
inserted by the create endpoint has no evaluators array; a missing array
matches no membership query, so it is modelled as the empty list. -/
structure Category where
  name : String
  description : Option String
  slug : String
  evaluators : List String
  deriving DecidableEq

/-- Model of `schemas.CategoryCreate`: the payload of the category create endpoint. -/
structure CategoryCreate where
  name : String
  description : Option String
  slug : String
  deriving DecidableEq

/-- Model of `models.Question` (the `section` label is renamed `sectionLabel`). -/
structure Question where
  id : String
  project_statement : String
  project_description : Option String
  evaluator_statement : String
  evaluator_description : Option String
  sectionLabel : String
  order : Int
  deriving DecidableEq

/-- Model of `models.SubmissionAnswer`. -/
structure SubmissionAnswer where
  id : String
  question_id : String
  answer : String
  deriving DecidableEq

/-- Model of `models.EvaluationAnswer`. -/
structure EvaluationAnswer where
  id : String
  question_id : String
  answer : String
  deriving DecidableEq

/-- Model of `models.Evaluation`: timestamps are modelled as rationals. -/
structure Evaluation where
  id : String
  date_completed : ℚ
  evaluator : String
  submission_id : String
  score : Option ℚ
  answers : List EvaluationAnswer
  deriving DecidableEq

/-- A submission record as stored in the submissions collection.  Stored
documents need not carry an `owner` key, so `owner` is an `Option`. -/
structure Submission where
  id : String
  date_completed : Option ℚ
  project_id : String
  project_name : String
  karma_gap_id : String
  score : Option ℚ
  answers : List SubmissionAnswer
  evaluations : List Evaluation
  category : Category
  owner : Option String
  deriving DecidableEq

/-- Model of `schemas.SubmissionAnswerCreate`. -/
structure SubmissionAnswerCreate where
  question_id : String
  answer : String
  deriving DecidableEq

/-- Model of `schemas.SubmissionCreate`. -/
structure SubmissionCreate where
  project_id : String
  project_name : String
  karma_gap_id : String
  category : String
  answers : List SubmissionAnswerCreate
  deriving DecidableEq

/-- Model of `schemas.EvaluationCreate`. -/
structure EvaluationCreate where
  evaluator : String
  submission_id : String
  answers : List EvaluationAnswerCreate
  deriving DecidableEq

/-- The HTTP error outcomes raised by the endpoints.  `validationError`
stands for a pydantic ValidationError escaping as an HTTP 500. -/
inductive ApiError where
  | notFound
  | conflict
  | validationError
  deriving DecidableEq

/-- Model of `collection.update_one(filter, ...)`: replace the first record matching
the filter, leave everything else untouched. -/
def updateFirst {α : Type} (p : α → Bool) (f : α → α) : List α → List α
  | [] => []
  | x :: xs => if p x then f x :: xs else x :: updateFirst p f xs

/-- Model of `create_category` (app.py lines 61-82): reject a duplicate slug with an
HTTP 400, otherwise insert the one new record. -/
def createCategory (input : CategoryCreate) (categories : List Category) :
    Except ApiError Category × List Category :=
  match categories.find? (fun c => c.slug == input.slug) with
  | some _ => (.error .conflict, categories)
  | none =>
    let cat : Category := ⟨input.name, input.description, input.slug, []⟩
    (.ok cat, categories ++ [cat])

/-- Model of `create_submission_with_answers` (app.py lines 167-247),
restricted to its effect on the submissions collection.  After the category
check, the code builds `models.Submission` (app.py lines 197-207) without
the `owner` field that `models.Submission` requires (models.py line 99) —
neither `schemas.SubmissionCreate` nor the endpoint supplies one — so
pydantic raises ValidationError before the insert at app.py line 214 (an
answer over the 1800-character bound of `models.SubmissionAnswer` would
raise the same way at lines 188-194).  Every run therefore fails after the
category check and writes nothing; `now`, `subId` and `ansId` model the
clock and uuid draws the code makes before failing. -/
def createSubmission (_now : ℚ) (_subId : String) (_ansId : ℕ → String)
    (input : SubmissionCreate) (categories : List Category) (store : List Submission) :
    Except ApiError Submission × List Submission :=
  match categories.find? (fun c => c.slug == input.category) with
  | none => (.error .notFound, store)
  | some _ => (.error .validationError, store)

/-- The aggregate submission score computed in `create_evaluation_with_answers`
(app.py lines 397-399) from the non-null evaluation scores. -/
def newSubmissionScore (scores : List ℚ) : ℚ :=
  if scores.isEmpty then 0 else round4 (scores.sum / scores.length)

/-- The evaluation answers built in `create_evaluation_with_answers`. -/
def mkEvaluationAnswers (ansId : ℕ → String) : ℕ → List EvaluationAnswerCreate → List EvaluationAnswer
  | _, [] => []
  | i, a :: rest => ⟨ansId i, a.question_id, a.answer⟩ :: mkEvaluationAnswers ansId (i + 1) rest

/-- Model of `create_evaluation_with_answers` (app.py lines 339-444), restricted to
its effect on the submissions collection: find the submission, score the
answers, append the new evaluation to the submission's embedded list, and
update that one record's `evaluations` and `score` fields. -/
def createEvaluation (cfg : ScoreConfig) (now : ℚ) (evalId : String) (ansId : ℕ → String)
    (input : EvaluationCreate) (store : List Submission) :
    Except ApiError Evaluation × List Submission :=
  match store.find? (fun s => s.id == input.submission_id) with
  | none => (.error .notFound, store)
  | some sub =>
    let ev : Evaluation :=
      ⟨evalId, now, input.evaluator, input.submission_id,
        some (calculatedScore cfg input.answers), mkEvaluationAnswers ansId 0 input.answers⟩
    let subEvals := sub.evaluations ++ [ev]
    let newScore := newSubmissionScore (subEvals.filterMap Evaluation.score)
    (.ok ev,
      updateFirst (fun s => s.id == input.submission_id)
        (fun s => { s with evaluations := subEvals, score := some newScore }) store)

lemma exists_split_of_find?_eq_some {α : Type} {p : α → Bool} :
    ∀ {l : List α} {x : α}, l.find? p = some x →
      ∃ l₁ l₂, l = l₁ ++ x :: l₂ ∧ (∀ y ∈ l₁, p y = false) ∧ p x = true := by
  intro l
  induction l with
  | nil => intro x h; simp at h
  | cons y ys ih =>
    intro x h
    rw [List.find?_cons] at h
    split at h
    · obtain rfl := Option.some.injEq _ _ ▸ h
      exact ⟨[], ys, by simp, by simp, by assumption⟩
    · obtain ⟨l₁, l₂, rfl, hl₁, hx⟩ := ih h
      refine ⟨y :: l₁, l₂, by simp, ?_, hx⟩
      intro z hz
      rcases List.mem_cons.1 hz with rfl | hz
      · simpa using by assumption
      · exact hl₁ z hz

lemma updateFirst_of_split {α : Type} (p : α → Bool) (f : α → α)
    (l₁ l₂ : List α) (x : α) (hl₁ : ∀ y ∈ l₁, p y = false) (hx : p x = true) :
    updateFirst p f (l₁ ++ x :: l₂) = l₁ ++ f x :: l₂ := by
  induction l₁ with
  | nil => simp [updateFirst, hx]
  | cons y ys ih =>
    have hy : p y = false := hl₁ y (List.mem_cons_self _ _)
    simp only [List.cons_append, updateFirst, hy]
    simp [ih (fun z hz => hl₁ z (List.mem_cons_of_mem _ hz))]

lemma find?_of_split {α : Type} (p : α → Bool)
    (l₁ l₂ : List α) (x : α) (hl₁ : ∀ y ∈ l₁, p y = false) (hx : p x = true) :
    (l₁ ++ x :: l₂).find? p = some x := by
  induction l₁ with
  | nil => simp [List.find?_cons, hx]
  | cons y ys ih =>
    have hy : p y = false := hl₁ y (List.mem_cons_self _ _)
    simp only [List.cons_append, List.find?_cons, hy]
    simp [ih (fun z hz => hl₁ z (List.mem_cons_of_mem _ hz))]

/-- The `questions_dict` built in `get_submission` / `get_evaluation`
(app.py lines 277-281 and 458-462): fetch the questions whose id is among
the answers' question ids, then key them by id, a later record overwriting
an earlier one; lookup is therefore last-match over the filtered catalog. -/
def lookupQuestionDict (catalog : List Question) (qids : List String) (qid : String) :
    Option Question :=
  ((catalog.filter (fun q => qids.contains q.id)).reverse).find? (fun q => q.id == qid)

/-- The answer/question join shared by `get_submission` (app.py lines
284-294) and `get_evaluation` (app.py lines 464-475): an answer is kept,
paired with its question, only when the question id resolves. -/
def answersWithQuestions {α : Type} (qidOf : α → String) (catalog : List Question)
    (answers : List α) : List (α × Question) :=
  answers.filterMap
    (fun a => (lookupQuestionDict catalog (answers.map qidOf) (qidOf a)).map (fun q => (a, q)))

/-- Claims carried by the session token (`onchain._create_token`). -/
structure Claims where
  sub : String
  role : String
  exp : ℚ
  deriving DecidableEq

/-- A signed JWT, modelled as its claims plus the secret it was signed
with: signature verification succeeds exactly when the secrets match. -/
structure SignedToken where
  claims : Claims
  signedWith : String
  deriving DecidableEq

/-- Modelled from the spec: the external `jose` library's `jwt.decode`
returns the claims when the signature verifies under `secret` and the
`exp` claim has not passed, and raises `JWTError` (here `none`) otherwise. -/
def jwtDecode (secret : String) (now : ℚ) (tok : SignedToken) : Option Claims :=
  if tok.signedWith = secret ∧ now ≤ tok.claims.exp then some tok.claims else none

/-- Model of `onchain._verify_token` (lines 74-80): `None` for a missing token, the
decoded claims on success, and `None` when `jwt.decode` raises. -/
def verifyToken (secret : String) (now : ℚ) (token : Option SignedToken) : Option Claims :=
  match token with
  | none => none
  | some tok => jwtDecode secret now tok

/-- Model of `onchain._role` (lines 51-63): "user" for a falsy address, otherwise
"evaluator" exactly when some category's evaluators array contains the
checksummed address.  `to_checksum_address` is passed in abstractly. -/
def roleOf (checksum : String → String) (categories : List Category) (address : String) :
    String :=
  if address = "" then "user"
  else if categories.any (fun c => c.evaluators.contains (checksum address)) then "evaluator"
  else "user"

/-- Model of `onchain._clean_nonces` (lines 38-42): drop every entry whose expiry is
strictly before now.  The registry is modelled as a partial map. -/
def cleanNonces (now : ℚ) (nonces : String → Option ℚ) : String → Option ℚ :=
  fun n => match nonces n with
    | some e => if e < now then none else some e
    | none => none

/-- Model of `onchain._new_nonce` (lines 44-48): evict expired entries, then store a
fresh token with expiry `now + ttl` and return it.  The `uuid4().hex` value
is supplied by the caller as `fresh`. -/
def newNonce (ttl : ℚ) (fresh : String) (now : ℚ) (nonces : String → Option ℚ) :
    String × (String → Option ℚ) :=
  let cleaned := cleanNonces now nonces
  (fresh, fun n => if n = fresh then some (now + ttl) else cleaned n)


/-- Concrete fixtures used by witnesses: a submission "s1" with one prior
evaluation scored 0.8, and a configuration under which the incoming answers
["1","1"] score 0.6, so the spec's aggregation example 0.7 is reproduced. -/
def wEval1 : Evaluation := ⟨"e1", 0, "alice", "s1", some (4/5), []⟩

/-- Witness fixture: the stored submission "s1". -/
def wSub : Submission :=
  ⟨"s1", some 0, "p1", "Proj", "kg1", some (4/5), [], [wEval1],
    ⟨"Climate", none, "climate", []⟩, none⟩

/-- Witness fixture: the submissions collection holding only `wSub`. -/
def wStore : List Submission := [wSub]

/-- Witness fixture: AGREE_SCORE=1.2, so answers ["1","1"] score 0.6. -/
def wCfg : ScoreConfig := ⟨4, 6/5, 0, 1/2⟩

/-- Witness fixture: the incoming evaluation request for "s1". -/
def wInput : EvaluationCreate := ⟨"bob", "s1", [⟨"q1", "1"⟩, ⟨"q2", "1"⟩]⟩

lemma lookupQuestionDict_some (catalog : List Question) (qids : List String)
    (qid : String) (q : Question)
    (h : lookupQuestionDict catalog qids qid = some q) :
    q ∈ catalog ∧ q.id = qid := by
  unfold lookupQuestionDict at h
  have hq := List.find?_some h
  have hmem := List.mem_of_find?_eq_some h
  rw [List.mem_reverse, List.mem_filter] at hmem
  exact ⟨hmem.1, by simpa using hq⟩

lemma lookupQuestionDict_isSome (catalog : List Question) (qids : List String)
    (qid : String) (hq : qid ∈ qids) :
    (lookupQuestionDict catalog qids qid).isSome =
      catalog.any (fun q => q.id == qid) := by
  unfold lookupQuestionDict
  rw [Bool.eq_iff_iff, List.find?_isSome, List.any_eq_true]
  constructor
  · rintro ⟨x, hx, hpx⟩
    rw [List.mem_reverse, List.mem_filter] at hx
    exact ⟨x, hx.1, hpx⟩
  · rintro ⟨x, hx, hpx⟩
    refine ⟨x, ?_, hpx⟩
    rw [List.mem_reverse, List.mem_filter]
    refine ⟨hx, ?_⟩
    have : x.id = qid := by simpa using hpx
    simpa [this] using hq

lemma map_fst_filterMap_pair {α β : Type} (f : α → Option β) (l : List α) :
    (l.filterMap (fun a => (f a).map (fun b => (a, b)))).map Prod.fst =
      l.filter (fun a => (f a).isSome) := by
  induction l with
  | nil => rfl
  | cons x xs ih => cases h : f x <;> simp [h, ih]

/-- C1: the claim says a single answer code outside {"1","2","3"} forces the
evaluation score to 0.0 regardless of the position of the other answers.  The
code only resets the running total at the malformed answer: with the spec's
example configuration, the answers ["9","1"] produce score 0.25, not 0.0. -/
theorem frf_c1_counterexample :
    ¬ validCode ⟨"q1", "9"⟩ ∧
    calculatedScore specCfg [⟨"q1", "9"⟩, ⟨"q2", "1"⟩] = 1/4 ∧ (1/4 : ℚ) ≠ 0 := by
  refine ⟨by decide, ?_, by norm_num⟩
  have h : rawScore specCfg [⟨"q1", "9"⟩, ⟨"q2", "1"⟩] = 1 := by
    simp [rawScore, scoreStep, specCfg]
  rw [calculatedScore, h, round4_of_mul_eq_int _ 2500 (by norm_num [specCfg])]
  norm_num

/-- C1 (amended): an answer code outside {"1","2","3"} resets the running
total to zero at its position, but valid answers after it still accumulate;
the evaluation score is round(sum of the weights of the answers after the
last malformed answer / MAX_SCORE, 4).  In particular when the last answer is
malformed the score is 0.0. -/
theorem frf_c1_amended (cfg : ScoreConfig) (l₁ l₂ : List EvaluationAnswerCreate)
    (bad : EvaluationAnswerCreate) (hbad : ¬ validCode bad)
    (hl₂ : ∀ a ∈ l₂, validCode a) :
    calculatedScore cfg (l₁ ++ bad :: l₂) = round4 (weightSum cfg l₂ / cfg.MAX_SCORE) := by
  rw [calculatedScore, rawScore_after_invalid cfg l₁ l₂ bad hbad hl₂]

/-- Witness for C1 (amended): answers ["1","9","1"] score 0.25 — the weight
of the one valid answer after the malformed one, normalized by MAX_SCORE=4. -/
theorem frf_c1_amended_witness :
    calculatedScore specCfg [⟨"a", "1"⟩, ⟨"b", "9"⟩, ⟨"c", "1"⟩] = 1/4 := by
  have h := frf_c1_amended specCfg [⟨"a", "1"⟩] [⟨"c", "1"⟩] ⟨"b", "9"⟩
    (by decide) (by decide)
  have h2 : weightSum specCfg [⟨"c", "1"⟩] = 1 := by
    simp [weightSum, answerWeight, specCfg]
  rw [h2, round4_of_mul_eq_int _ 2500 (by norm_num [specCfg])] at h
  norm_num at h
  simpa using h

/-- C3: when every answer code is in {"1","2","3"}, each answer contributes
AGREE_SCORE for "1", DISAGREE_SCORE for "2", NEITHER_SCORE for "3", and the
evaluation score is round(sum of weights / MAX_SCORE, 4). -/
theorem frf_c3 (cfg : ScoreConfig) (answers : List EvaluationAnswerCreate)
    (h : ∀ a ∈ answers, validCode a) :
    (∀ q, answerWeight cfg ⟨q, "1"⟩ = cfg.AGREE_SCORE ∧
      answerWeight cfg ⟨q, "2"⟩ = cfg.DISAGREE_SCORE ∧
      answerWeight cfg ⟨q, "3"⟩ = cfg.NEITHER_SCORE) ∧
    calculatedScore cfg answers = round4 (weightSum cfg answers / cfg.MAX_SCORE) := by
  refine ⟨fun q => by simp [answerWeight], ?_⟩
  rw [calculatedScore, rawScore_all_valid cfg answers h]

/-- Witness for C3: the spec's worked example — AGREE=1, DISAGREE=0,
NEITHER=0.5, MAX=4, answers ["1","1","2","3"] give score 0.625. -/
theorem frf_c3_witness :
    calculatedScore specCfg [⟨"a", "1"⟩, ⟨"b", "1"⟩, ⟨"c", "2"⟩, ⟨"d", "3"⟩] = 625/1000 := by
  have h := (frf_c3 specCfg [⟨"a", "1"⟩, ⟨"b", "1"⟩, ⟨"c", "2"⟩, ⟨"d", "3"⟩] (by decide)).2
  have h2 : weightSum specCfg [⟨"a", "1"⟩, ⟨"b", "1"⟩, ⟨"c", "2"⟩, ⟨"d", "3"⟩] = 5/2 := by
    simp [weightSum, answerWeight, specCfg]
    norm_num
  rw [h2, round4_of_mul_eq_int _ 6250 (by norm_num [specCfg])] at h
  norm_num at h ⊢
  exact h


/-- C8: creating a category whose slug equals the slug of a stored category
fails with the conflict error and leaves the collection unchanged; when no
category with the slug exists, exactly one new record is inserted. -/
theorem frf_c8 (input : CategoryCreate) (categories : List Category) :
    ((∃ c ∈ categories, c.slug = input.slug) →
      createCategory input categories = (.error .conflict, categories)) ∧
    ((∀ c ∈ categories, c.slug ≠ input.slug) →
      createCategory input categories =
        (.ok ⟨input.name, input.description, input.slug, []⟩,
          categories ++ [⟨input.name, input.description, input.slug, []⟩])) := by
  constructor
  · rintro ⟨c, hc, hslug⟩
    unfold createCategory
    cases h : categories.find? (fun c => c.slug == input.slug) with
    | none =>
      rw [List.find?_eq_none] at h
      exact absurd (by simpa using hslug) (h c hc)
    | some _ => rfl
  · intro hall
    unfold createCategory
    cases h : categories.find? (fun c => c.slug == input.slug) with
    | none => rfl
    | some c =>
      have hmem := List.mem_of_find?_eq_some h
      have hp := List.find?_some h
      exact absurd (by simpa using hp) (hall c hmem)

/-- Witness for C8: duplicate slug "climate" is rejected with the store
unchanged; fresh slug "energy" inserts exactly one record. -/
theorem frf_c8_witness :
    createCategory ⟨"Climate2", none, "climate"⟩ [⟨"Climate", none, "climate", []⟩] =
      (.error .conflict, [⟨"Climate", none, "climate", []⟩]) ∧
    createCategory ⟨"Energy", none, "energy"⟩ [⟨"Climate", none, "climate", []⟩] =
      (.ok ⟨"Energy", none, "energy", []⟩,
        [⟨"Climate", none, "climate", []⟩, ⟨"Energy", none, "energy", []⟩]) := by
  constructor
  · exact (frf_c8 ⟨"Climate2", none, "climate"⟩ [⟨"Climate", none, "climate", []⟩]).1
      ⟨⟨"Climate", none, "climate", []⟩, by simp, rfl⟩
  · exact (frf_c8 ⟨"Energy", none, "energy"⟩ [⟨"Climate", none, "climate", []⟩]).2
      (by decide)

/-- C4: the claim's creation half describes the intended behavior (app.py
line 203 passes `score=None`), but `models.Submission` requires an `owner`
the endpoint never supplies, so on every request whose category exists the
operation fails with the validation error and writes nothing — no
submission is ever created, hence none with score null; the aggregation
half of the claim holds: whenever every attached evaluation score is null,
the aggregate resolves to 0.0, not null. -/
theorem frf_c4 :
    (∀ (now : ℚ) (subId : String) (ansId : ℕ → String) (input : SubmissionCreate)
        (categories : List Category) (store : List Submission) (cat : Category),
        categories.find? (fun c => c.slug == input.category) = some cat →
        createSubmission now subId ansId input categories store =
          (.error .validationError, store)) ∧
    (∀ evals : List Evaluation, (∀ e ∈ evals, e.score = none) →
        newSubmissionScore (evals.filterMap Evaluation.score) = 0) := by
  constructor
  · intro now subId ansId input categories store cat hf
    unfold createSubmission
    rw [hf]
  · intro evals h
    have hnil : evals.filterMap Evaluation.score = [] := by
      rw [List.filterMap_eq_nil_iff]
      exact h
    rw [hnil]
    rfl

/-- Witness for C4: the failing input — a well-formed request for the
existing category "climate" — errors with the validation failure and
leaves the collection unchanged; a list holding one null-scored evaluation
aggregates to 0. -/
theorem frf_c4_witness :
    createSubmission 0 "s1" (fun _ => "a") ⟨"p1", "P", "kg", "climate", []⟩
      [⟨"Climate", none, "climate", []⟩] [] = (.error .validationError, []) ∧
    newSubmissionScore
      ([({ id := "e1", date_completed := 0, evaluator := "al", submission_id := "s1",
           score := none, answers := [] } : Evaluation)].filterMap Evaluation.score) = 0 := by
  exact ⟨frf_c4.1 0 "s1" (fun _ => "a") ⟨"p1", "P", "kg", "climate", []⟩
      [⟨"Climate", none, "climate", []⟩] [] ⟨"Climate", none, "climate", []⟩ rfl,
    frf_c4.2 _ (by simp)⟩


lemma newSubmissionScore_eq (S : List ℚ) :
    newSubmissionScore S = if S = [] then 0 else round4 (S.sum / S.length) := by
  by_cases h : S = [] <;> simp [newSubmissionScore, h]

lemma createEvaluation_eq (cfg : ScoreConfig) (now : ℚ) (evalId : String)
    (ansId : ℕ → String) (input : EvaluationCreate) (store : List Submission)
    (sub : Submission)
    (hfind : store.find? (fun s => s.id == input.submission_id) = some sub) :
    createEvaluation cfg now evalId ansId input store =
      (let ev : Evaluation := ⟨evalId, now, input.evaluator, input.submission_id,
          some (calculatedScore cfg input.answers), mkEvaluationAnswers ansId 0 input.answers⟩;
       (.ok ev,
        updateFirst (fun s => s.id == input.submission_id)
          (fun s =>
            { s with
                evaluations := sub.evaluations ++ [ev]
                score := some (newSubmissionScore
                  ((sub.evaluations ++ [ev]).filterMap Evaluation.score)) }) store)) := by
  unfold createEvaluation
  rw [hfind]

/-- C2: creating an evaluation on an existing submission updates that
submission's score to round(mean(S), 4), where S gathers the non-null
scores of the pre-existing evaluations plus the newly created one, and to
0.0 when S is empty. -/
theorem frf_c2 (cfg : ScoreConfig) (now : ℚ) (evalId : String) (ansId : ℕ → String)
    (input : EvaluationCreate) (store : List Submission) (sub : Submission)
    (hfind : store.find? (fun s => s.id == input.submission_id) = some sub) :
    ∃ ev store',
      createEvaluation cfg now evalId ansId input store = (.ok ev, store') ∧
      ev.score = some (calculatedScore cfg input.answers) ∧
      store'.find? (fun s => s.id == input.submission_id) =
        some { sub with
                 evaluations := sub.evaluations ++ [ev]
                 score := some
                   (if (sub.evaluations ++ [ev]).filterMap Evaluation.score = [] then 0
                    else round4 (((sub.evaluations ++ [ev]).filterMap Evaluation.score).sum /
                      ((sub.evaluations ++ [ev]).filterMap Evaluation.score).length)) } := by
  obtain ⟨l₁, l₂, hstore, hl₁, hx⟩ := exists_split_of_find?_eq_some hfind
  refine ⟨_, _, createEvaluation_eq cfg now evalId ansId input store sub hfind, rfl, ?_⟩
  rw [hstore, updateFirst_of_split _ _ l₁ l₂ sub hl₁ hx,
    find?_of_split _ l₁ l₂ _ hl₁ (by simpa using hx), ← newSubmissionScore_eq]

/-- Witness for C2: the spec's aggregation example — a prior evaluation
scored 0.8 plus a new one scored 0.6 set the submission score to 0.7. -/
theorem frf_c2_witness :
    ∃ ev store' sub',
      createEvaluation wCfg 1 "e2" (fun _ => "x") wInput wStore = (.ok ev, store') ∧
      ev.score = some (3/5) ∧
      store'.find? (fun s => s.id == "s1") = some sub' ∧
      sub'.score = some (7/10) := by
  obtain ⟨ev, store', hrun, hscore, hfind⟩ :=
    frf_c2 wCfg 1 "e2" (fun _ => "x") wInput wStore wSub (by rfl)
  have hcalc : calculatedScore wCfg wInput.answers = 3/5 := by
    have h : rawScore wCfg wInput.answers = 12/5 := by
      simp [rawScore, scoreStep, wCfg, wInput]
      norm_num
    rw [calculatedScore, h, round4_of_mul_eq_int _ 6000 (by norm_num [wCfg])]
    norm_num
  have hS : (wSub.evaluations ++ [ev]).filterMap Evaluation.score = [4/5, 3/5] := by
    simp [wSub, wEval1, hscore, hcalc]
  rw [hS] at hfind
  have hval : (if ([4/5, 3/5] : List ℚ) = [] then (0 : ℚ)
      else round4 ((([4/5, 3/5] : List ℚ)).sum / (([4/5, 3/5] : List ℚ)).length)) = 7/10 := by
    rw [if_neg (by simp),
      show (([4/5, 3/5] : List ℚ)).sum / ((([4/5, 3/5] : List ℚ)).length : ℚ) = (7/10 : ℚ) by
        simp
        norm_num,
      round4_of_mul_eq_int _ 7000 (by norm_num)]
    norm_num
  rw [hval] at hfind
  exact ⟨ev, store',
    { wSub with evaluations := wSub.evaluations ++ [ev], score := some (7/10) },
    hrun, by rw [hscore, hcalc], hfind, rfl⟩

/-- C9: the evaluation-creation operation rewrites only the `evaluations`
and `score` fields of the target submission and leaves every other record
of the collection in place; the submission-creation operation — the only
other write path to the submissions collection — aborts on its validation
failure before any write and always returns the collection unchanged, so
no existing record's `score` or `evaluations` is touched by it. -/
theorem frf_c9 :
    (∀ (cfg : ScoreConfig) (now : ℚ) (evalId : String) (ansId : ℕ → String)
        (input : EvaluationCreate) (store : List Submission) (sub : Submission)
        (ev : Evaluation) (store' : List Submission),
        store.find? (fun s => s.id == input.submission_id) = some sub →
        createEvaluation cfg now evalId ansId input store = (.ok ev, store') →
        ∃ l₁ l₂ sub', store = l₁ ++ sub :: l₂ ∧ store' = l₁ ++ sub' :: l₂ ∧
          sub'.id = sub.id ∧ sub'.answers = sub.answers ∧ sub'.category = sub.category ∧
          sub'.project_id = sub.project_id ∧ sub'.project_name = sub.project_name ∧
          sub'.karma_gap_id = sub.karma_gap_id ∧ sub'.owner = sub.owner ∧
          sub'.date_completed = sub.date_completed ∧
          sub'.evaluations = sub.evaluations ++ [ev] ∧
          sub'.score = some (newSubmissionScore
            ((sub.evaluations ++ [ev]).filterMap Evaluation.score))) ∧
    (∀ (now : ℚ) (subId : String) (ansId : ℕ → String) (input : SubmissionCreate)
        (categories : List Category) (store : List Submission),
        (createSubmission now subId ansId input categories store).2 = store) := by
  constructor
  · intro cfg now evalId ansId input store sub ev store' hfind hrun
    rw [createEvaluation_eq cfg now evalId ansId input store sub hfind] at hrun
    simp only [Prod.mk.injEq, Except.ok.injEq] at hrun
    obtain ⟨hev, hst⟩ := hrun
    obtain ⟨l₁, l₂, hstore, hl₁, hx⟩ := exists_split_of_find?_eq_some hfind
    rw [hev] at hst
    refine ⟨l₁, l₂,
      { sub with
          evaluations := sub.evaluations ++ [ev]
          score := some (newSubmissionScore
            ((sub.evaluations ++ [ev]).filterMap Evaluation.score)) },
      hstore, ?_, rfl, rfl, rfl, rfl, rfl, rfl, rfl, rfl, rfl, rfl⟩
    rw [← hst, hstore, updateFirst_of_split _ _ l₁ l₂ sub hl₁ hx]
  · intro now subId ansId input categories store
    unfold createSubmission
    cases categories.find? (fun c => c.slug == input.category) <;> rfl

/-- Witness for C9: on the concrete store the evaluation-creation run keeps
the answers, category, owner and completion timestamp of "s1", and the
submission-creation run returns the collection unchanged. -/
theorem frf_c9_witness :
    (∃ ev store' l₁ l₂ sub',
      createEvaluation wCfg 1 "e2" (fun _ => "x") wInput wStore = (.ok ev, store') ∧
      wStore = l₁ ++ wSub :: l₂ ∧ store' = l₁ ++ sub' :: l₂ ∧
      sub'.answers = wSub.answers ∧ sub'.category = wSub.category ∧
      sub'.owner = wSub.owner ∧ sub'.date_completed = wSub.date_completed) ∧
    (createSubmission 0 "s9" (fun _ => "b") ⟨"p9", "P9", "kg9", "climate", []⟩
      [⟨"Climate", none, "climate", []⟩] wStore).2 = wStore := by
  constructor
  · obtain ⟨ev, store', hrun⟩ :
        ∃ ev store',
          createEvaluation wCfg 1 "e2" (fun _ => "x") wInput wStore = (.ok ev, store') :=
      ⟨_, _, rfl⟩
    obtain ⟨l₁, l₂, sub', hst1, hst2, hid, hans, hcat, hpid, hpn, hkg, hown, hdate,
        hevals, hsc⟩ :=
      frf_c9.1 wCfg 1 "e2" (fun _ => "x") wInput wStore wSub ev store' (by rfl) hrun
    exact ⟨ev, store', l₁, l₂, sub', hrun, hst1, hst2, hans, hcat, hown, hdate⟩
  · exact frf_c9.2 0 "s9" (fun _ => "b") ⟨"p9", "P9", "kg9", "climate", []⟩
      [⟨"Climate", none, "climate", []⟩] wStore

/-- C5: for a non-empty address, `_role` returns "evaluator" exactly when
the checksummed address appears in some category's evaluators list, and
returns "user" in every other case. -/
theorem frf_c5 (checksum : String → String) (categories : List Category)
    (address : String) (h : address ≠ "") :
    (roleOf checksum categories address = "evaluator" ↔
      ∃ c ∈ categories, checksum address ∈ c.evaluators) ∧
    (roleOf checksum categories address = "evaluator" ∨
      roleOf checksum categories address = "user") := by
  have hiff : categories.any (fun c => c.evaluators.contains (checksum address)) = true ↔
      ∃ c ∈ categories, checksum address ∈ c.evaluators := by
    simp [List.any_eq_true]
  unfold roleOf
  rw [if_neg h]
  by_cases hany : categories.any (fun c => c.evaluators.contains (checksum address)) = true
  · rw [if_pos hany]
    exact ⟨⟨fun _ => hiff.1 hany, fun _ => rfl⟩, .inl rfl⟩
  · rw [if_neg hany]
    refine ⟨⟨fun he => absurd he (by simp), fun hex => absurd (hiff.2 hex) hany⟩, .inr rfl⟩

/-- Witness for C5: with the identity checksum, "0xA" listed in one
category is an evaluator and "0xB" is a user. -/
theorem frf_c5_witness :
    roleOf (fun s => s) [⟨"Climate", none, "climate", ["0xA"]⟩] "0xA" = "evaluator" ∧
    roleOf (fun s => s) [⟨"Climate", none, "climate", ["0xA"]⟩] "0xB" = "user" := by
  constructor
  · exact (frf_c5 (fun s => s) [⟨"Climate", none, "climate", ["0xA"]⟩] "0xA"
      (by decide)).1.2 ⟨⟨"Climate", none, "climate", ["0xA"]⟩, by simp, by simp⟩
  · have h := frf_c5 (fun s => s) [⟨"Climate", none, "climate", ["0xA"]⟩] "0xB" (by decide)
    rcases h.2 with he | hu
    · exact absurd (h.1.1 he) (by simp)
    · exact hu

/-- C6: `_verify_token` returns the decoded claims exactly when a token is
present, its signature verifies under the shared secret and it is
unexpired; a missing token, a token signed with another secret and an
expired token all yield the same failure value `none`. -/
theorem frf_c6 (secret : String) (now : ℚ) :
    (∀ (t : Option SignedToken) (c : Claims),
      verifyToken secret now t = some c ↔
        ∃ tok, t = some tok ∧ tok.signedWith = secret ∧ now ≤ tok.claims.exp ∧
          c = tok.claims) ∧
    verifyToken secret now none = none ∧
    (∀ tok : SignedToken, tok.signedWith ≠ secret →
      verifyToken secret now (some tok) = none) ∧
    (∀ tok : SignedToken, tok.claims.exp < now →
      verifyToken secret now (some tok) = none) := by
  refine ⟨?_, rfl, ?_, ?_⟩
  · intro t c
    cases t with
    | none => simp [verifyToken]
    | some tok =>
      simp only [verifyToken, jwtDecode]
      by_cases hv : tok.signedWith = secret ∧ now ≤ tok.claims.exp
      · simp only [if_pos hv, Option.some.injEq]
        constructor
        · rintro rfl
          exact ⟨tok, rfl, hv.1, hv.2, rfl⟩
        · rintro ⟨tok', htok, _, _, rfl⟩
          obtain rfl : tok = tok' := by simpa using htok
          rfl
      · rw [if_neg hv]
        constructor
        · intro hc
          simp at hc
        · rintro ⟨tok', htok, hs, he, rfl⟩
          obtain rfl : tok = tok' := by simpa using htok
          exact absurd ⟨hs, he⟩ hv
  · intro tok hs
    simp [verifyToken, jwtDecode, hs]
  · intro tok he
    have : ¬ now ≤ tok.claims.exp := not_le.2 he
    simp [verifyToken, jwtDecode, this]

/-- Witness for C6: a well-signed unexpired token decodes; a missing token,
a token under another secret and an expired token all give `none`. -/
theorem frf_c6_witness :
    verifyToken "k" 10 (some ⟨⟨"0xA", "user", 20⟩, "k"⟩) = some ⟨"0xA", "user", 20⟩ ∧
    verifyToken "k" 10 none = none ∧
    verifyToken "k" 10 (some ⟨⟨"0xA", "user", 20⟩, "other"⟩) = none ∧
    verifyToken "k" 30 (some ⟨⟨"0xA", "user", 20⟩, "k"⟩) = none := by
  refine ⟨?_, (frf_c6 "k" 10).2.1, (frf_c6 "k" 10).2.2.1 _ (by decide),
    (frf_c6 "k" 30).2.2.2 _ (by norm_num)⟩
  exact ((frf_c6 "k" 10).1 _ _).2 ⟨_, rfl, rfl, by norm_num, rfl⟩

/-- C7: issuing a nonce first evicts every expired entry, stores the fresh
value with expiry now + NONCE_TTL, returns it, and distinct fresh values
from the random source yield distinct returned nonces. -/
theorem frf_c7 (ttl now : ℚ) (fresh : String) (nonces : String → Option ℚ) :
    (newNonce ttl fresh now nonces).1 = fresh ∧
    (newNonce ttl fresh now nonces).2 fresh = some (now + ttl) ∧
    (∀ n e, n ≠ fresh → nonces n = some e → e < now →
      (newNonce ttl fresh now nonces).2 n = none) ∧
    (∀ n, n ≠ fresh → (newNonce ttl fresh now nonces).2 n = cleanNonces now nonces n) ∧
    (∀ fresh₂ now₂, fresh₂ ≠ fresh →
      (newNonce ttl fresh₂ now₂ (newNonce ttl fresh now nonces).2).1 ≠
        (newNonce ttl fresh now nonces).1) := by
  refine ⟨rfl, by simp [newNonce], ?_, ?_, ?_⟩
  · intro n e hn he hlt
    simp [newNonce, hn, cleanNonces, he, hlt]
  · intro n hn
    simp [newNonce, hn]
  · intro fresh₂ now₂ hne
    simpa [newNonce] using hne

/-- Witness for C7: with TTL 300 at time 0, the fresh nonce "n1" is stored
with expiry 300 and the expired entry "old" is evicted. -/
theorem frf_c7_witness :
    (newNonce 300 "n1" 0 (fun n => if n = "old" then some (-1) else none)).2 "n1" =
      some (0 + 300) ∧
    (newNonce 300 "n1" 0 (fun n => if n = "old" then some (-1) else none)).2 "old" =
      none := by
  have h := frf_c7 300 0 "n1" (fun n => if n = "old" then some (-1) else none)
  exact ⟨h.2.1, h.2.2.1 "old" (-1) (by decide) (by simp) (by norm_num)⟩

/-- C10: in the submission and evaluation reads, an answer whose question id
matches no question in the catalog is silently omitted: the returned list is
exactly the answers whose referenced question exists, each paired with a
question from the catalog bearing that id. -/
theorem frf_c10 {α : Type} (qidOf : α → String) (catalog : List Question)
    (answers : List α) :
    (answersWithQuestions qidOf catalog answers).map Prod.fst =
      answers.filter (fun a => catalog.any (fun q => q.id == qidOf a)) ∧
    ∀ p ∈ answersWithQuestions qidOf catalog answers,
      p.2 ∈ catalog ∧ p.2.id = qidOf p.1 := by
  constructor
  · unfold answersWithQuestions
    rw [map_fst_filterMap_pair]
    apply List.filter_congr
    intro a ha
    exact lookupQuestionDict_isSome catalog _ (qidOf a) (List.mem_map_of_mem qidOf ha)
  · intro p hp
    unfold answersWithQuestions at hp
    rw [List.mem_filterMap] at hp
    obtain ⟨a, ha, hpa⟩ := hp
    cases hl : lookupQuestionDict catalog (answers.map qidOf) (qidOf a) with
    | none => rw [hl] at hpa; simp at hpa
    | some q =>
      rw [hl] at hpa
      have hpa' : (a, q) = p := by simpa using hpa
      subst hpa'
      have hq := lookupQuestionDict_some catalog _ _ q hl
      exact ⟨hq.1, hq.2⟩

/-- Witness for C10: with a one-question catalog, the answer referencing
"q1" is kept and the answer referencing the unknown "q9" is dropped. -/
theorem frf_c10_witness :
    (answersWithQuestions (fun a : SubmissionAnswer => a.question_id)
        [⟨"q1", "ps", none, "es", none, "sec", 1⟩]
        [⟨"a1", "q1", "yes"⟩, ⟨"a2", "q9", "no"⟩]).map Prod.fst =
      [⟨"a1", "q1", "yes"⟩] := by
  rw [(frf_c10 (fun a : SubmissionAnswer => a.question_id)
    [⟨"q1", "ps", none, "es", none, "sec", 1⟩]
    [⟨"a1", "q1", "yes"⟩, ⟨"a2", "q9", "no"⟩]).1]
  rfl

end FRF
